import Mathlib

/-!
Verification of the GF(2^8) arithmetic library (`gf256-lite`).

The definitions below are a shallow embedding of `src/lib.rs`:

* `gen_exp_table` / `gen_log_table` embed the two table constructors;
* `galAdd`, `galSub`, `galMul`, `galDiv`, `galInv`, `galExp` embed the
  `Add`/`Sub`/`Mul`/`Div` trait impls and the `inv`/`exp` methods on `Galois`.

A `Galois` value wraps a `u8`; we model bytes as `Nat` below 256 (theorem
binders use `Fin 256`).  Rust's `u32` arithmetic in `exp` wraps, which we model
with an explicit `% 2 ^ 32`.  Rust panics (`assert_ne!`, `assert!`) are modelled
by `Option.none`.
-/

set_option maxRecDepth 8192

/-- `const PRIMITIVE_POLYNOMIAL: usize = 0b100011101;` -/
def PRIMITIVE_POLYNOMIAL : Nat := 0b100011101

/-- `const FIELD_SIZE: usize = 1 << 8;` -/
def FIELD_SIZE : Nat := 1 <<< 8

/-- Body of the loop in `gen_exp_table`: double the previous entry and reduce
by the primitive polynomial when the shift overflows 8 bits. -/
def expStep (x : Nat) : Nat :=
  if 255 < x <<< 1 then (x <<< 1) ^^^ PRIMITIVE_POLYNOMIAL else x <<< 1

/-- The first `n` entries of the exponent table starting from accumulator `x`:
entry `0` is `x` and each later entry is `expStep` of the previous one. -/
def expIter (x : Nat) : Nat → List Nat
  | 0 => []
  | Nat.succ n => x :: expIter (expStep x) n

/-- `fn gen_exp_table() -> [Galois; 256]`: entries `0..=254` are the powers of
the generator starting from `1`; entry `255` keeps the array initialiser
`Galois::zero()`. -/
def gen_exp_table : List Nat :=
  expIter 1 (FIELD_SIZE - 1) ++ [0]

/-- `static ref EXP_TABLE` -/
def EXP_TABLE : List Nat := gen_exp_table

/-- `fn gen_log_table() -> [u8; 256]`: start from an all-zero array and write
`logs[exp_table[i]] = i` for `i` in `0..255`. -/
def gen_log_table : List Nat :=
  (List.range (FIELD_SIZE - 1)).foldl
    (fun logs i => logs.set (EXP_TABLE.getD i 0) i)
    (List.replicate FIELD_SIZE 0)

/-- `static ref LOG_TABLE` -/
def LOG_TABLE : List Nat := gen_log_table

/-- `impl Add for Galois`: bitwise XOR. -/
def galAdd (a b : Nat) : Nat := a ^^^ b

/-- `impl Sub for Galois`: bitwise XOR. -/
def galSub (a b : Nat) : Nat := a ^^^ b

/-- The exponent-table index computed by `Mul::mul` for nonzero operands:
`pow_mul = pow_l + pow_r`, reduced by 255 once when it reaches 255. -/
def mulPow (a b : Nat) : Nat :=
  if 255 ≤ LOG_TABLE.getD a 0 + LOG_TABLE.getD b 0 then
    LOG_TABLE.getD a 0 + LOG_TABLE.getD b 0 - 255
  else
    LOG_TABLE.getD a 0 + LOG_TABLE.getD b 0

/-- `impl Mul for Galois`. -/
def galMul (a b : Nat) : Nat :=
  if a = 0 ∨ b = 0 then 0 else EXP_TABLE.getD (mulPow a b) 0

/-- The exponent-table index computed by `Div::div` for nonzero operands
(`isize` in the source, hence `Int` here): `pow_div = pow_l - pow_r`, with 255
added once when the difference is negative. -/
def divPow (a b : Nat) : Int :=
  if (LOG_TABLE.getD a 0 : Int) - (LOG_TABLE.getD b 0 : Int) < 0 then
    (LOG_TABLE.getD a 0 : Int) - (LOG_TABLE.getD b 0 : Int) + ((FIELD_SIZE - 1 : Nat) : Int)
  else
    (LOG_TABLE.getD a 0 : Int) - (LOG_TABLE.getD b 0 : Int)

/-- `impl Div for Galois`.  `none` models a panic: the `assert_ne!` for a zero
divisor, or the `assert!(pow_div >= 0)` guard. -/
def galDiv (a b : Nat) : Option Nat :=
  if a = 0 then some 0
  else if b = 0 then none
  else if divPow a b < 0 then none
  else some (EXP_TABLE.getD (divPow a b).toNat 0)

/-- `Galois::inv`: `identity / self`. -/
def galInv (a : Nat) : Option Nat := galDiv 1 a

/-- The `while log_res >= 255 { log_res -= 255 }` loop of `Galois::exp`. -/
def reduce255 (x : Nat) : Nat :=
  if h : 255 ≤ x then reduce255 (x - 255) else x
termination_by x
decreasing_by omega

/-- The exponent-table index computed by `Galois::exp` for a nonzero base and
exponent: `log_a * n` in wrapping `u32` arithmetic, then the reduction loop. -/
def expPow (a n : Nat) : Nat :=
  reduce255 (LOG_TABLE.getD a 0 * n % 2 ^ 32)

/-- `Galois::exp`. -/
def galExp (a n : Nat) : Nat :=
  if n = 0 then 1
  else if a = 0 then 0
  else EXP_TABLE.getD (expPow a n) 0

/-! ### Concrete values of the generated tables

The two lemmas below evaluate the table constructors once and for all; the
resulting literals agree entry-for-entry with the golden tables in the
repository's `test_pow_eq` and `test_logs_eq` tests. -/

theorem EXP_TABLE_eq : EXP_TABLE = [1, 2, 4, 8, 16, 32, 64, 128, 29, 58, 116, 232, 205, 135, 19, 38, 76, 152, 45, 90, 180, 117, 234, 201, 143, 3, 6, 12, 24, 48, 96, 192, 157, 39, 78, 156, 37, 74, 148, 53, 106, 212, 181, 119, 238, 193, 159, 35, 70, 140, 5, 10, 20, 40, 80, 160, 93, 186, 105, 210, 185, 111, 222, 161, 95, 190, 97, 194, 153, 47, 94, 188, 101, 202, 137, 15, 30, 60, 120, 240, 253, 231, 211, 187, 107, 214, 177, 127, 254, 225, 223, 163, 91, 182, 113, 226, 217, 175, 67, 134, 17, 34, 68, 136, 13, 26, 52, 104, 208, 189, 103, 206, 129, 31, 62, 124, 248, 237, 199, 147, 59, 118, 236, 197, 151, 51, 102, 204, 133, 23, 46, 92, 184, 109, 218, 169, 79, 158, 33, 66, 132, 21, 42, 84, 168, 77, 154, 41, 82, 164, 85, 170, 73, 146, 57, 114, 228, 213, 183, 115, 230, 209, 191, 99, 198, 145, 63, 126, 252, 229, 215, 179, 123, 246, 241, 255, 227, 219, 171, 75, 150, 49, 98, 196, 149, 55, 110, 220, 165, 87, 174, 65, 130, 25, 50, 100, 200, 141, 7, 14, 28, 56, 112, 224, 221, 167, 83, 166, 81, 162, 89, 178, 121, 242, 249, 239, 195, 155, 43, 86, 172, 69, 138, 9, 18, 36, 72, 144, 61, 122, 244, 245, 247, 243, 251, 235, 203, 139, 11, 22, 44, 88, 176, 125, 250, 233, 207, 131, 27, 54, 108, 216, 173, 71, 142, 0] := by
  decide

theorem LOG_TABLE_eq : LOG_TABLE = [0, 0, 1, 25, 2, 50, 26, 198, 3, 223, 51, 238, 27, 104, 199, 75, 4, 100, 224, 14, 52, 141, 239, 129, 28, 193, 105, 248, 200, 8, 76, 113, 5, 138, 101, 47, 225, 36, 15, 33, 53, 147, 142, 218, 240, 18, 130, 69, 29, 181, 194, 125, 106, 39, 249, 185, 201, 154, 9, 120, 77, 228, 114, 166, 6, 191, 139, 98, 102, 221, 48, 253, 226, 152, 37, 179, 16, 145, 34, 136, 54, 208, 148, 206, 143, 150, 219, 189, 241, 210, 19, 92, 131, 56, 70, 64, 30, 66, 182, 163, 195, 72, 126, 110, 107, 58, 40, 84, 250, 133, 186, 61, 202, 94, 155, 159, 10, 21, 121, 43, 78, 212, 229, 172, 115, 243, 167, 87, 7, 112, 192, 247, 140, 128, 99, 13, 103, 74, 222, 237, 49, 197, 254, 24, 227, 165, 153, 119, 38, 184, 180, 124, 17, 68, 146, 217, 35, 32, 137, 46, 55, 63, 209, 91, 149, 188, 207, 205, 144, 135, 151, 178, 220, 252, 190, 97, 242, 86, 211, 171, 20, 42, 93, 158, 132, 60, 57, 83, 71, 109, 65, 162, 31, 45, 67, 216, 183, 123, 164, 118, 196, 23, 73, 236, 127, 12, 111, 246, 108, 161, 59, 82, 41, 157, 85, 170, 251, 96, 134, 177, 187, 204, 62, 90, 203, 89, 95, 176, 156, 169, 160, 81, 11, 245, 22, 235, 122, 117, 44, 215, 79, 174, 213, 233, 230, 231, 173, 232, 116, 214, 244, 234, 168, 80, 88, 175] := by
  decide

/-! ### Decidable facts about the tables -/

/-- Every log-table entry is at most 254. -/
theorem log_le_254 : ∀ a : Fin 256, LOG_TABLE.getD a.val 0 ≤ 254 := by
  simp only [LOG_TABLE_eq]
  decide

/-- The exponent table inverts the log table on nonzero bytes. -/
theorem exp_log_id : ∀ a : Fin 256, a.val ≠ 0 →
    EXP_TABLE.getD (LOG_TABLE.getD a.val 0) 0 = a.val := by
  simp only [LOG_TABLE_eq, EXP_TABLE_eq]
  decide

/-- The log table inverts the exponent table on exponents `0..=254`. -/
theorem log_exp_id : ∀ e : Fin 255,
    LOG_TABLE.getD (EXP_TABLE.getD e.val 0) 0 = e.val := by
  simp only [LOG_TABLE_eq, EXP_TABLE_eq]
  decide

/-- Exponent-table entries `0..=254` are nonzero bytes. -/
theorem exp_range : ∀ e : Fin 255,
    1 ≤ EXP_TABLE.getD e.val 0 ∧ EXP_TABLE.getD e.val 0 ≤ 255 := by
  simp only [EXP_TABLE_eq]
  decide

/-- The reduction loop of `Galois::exp` computes a remainder mod 255. -/
theorem reduce255_eq (x : Nat) : reduce255 x = x % 255 := by
  induction x using Nat.strong_induction_on with
  | _ x ih =>
    rw [reduce255]
    by_cases h : 255 ≤ x
    · rw [dif_pos h, ih (x - 255) (by omega), Nat.mod_eq_sub_mod h]
    · rw [dif_neg h, Nat.mod_eq_of_lt (by omega)]

/-- `FIELD_SIZE` evaluates to 256. -/
theorem FIELD_SIZE_eq : FIELD_SIZE = 256 := by decide

/-- For a nonzero byte `a` and an exponent `i ≤ 254`, multiplying `a` by the
table entry `g^i` lands on the table entry at exponent `(log a + i) mod 255`. -/
theorem mul_exp_entry (a : Fin 256) (ha : a.val ≠ 0) (i : Nat) (hi : i ≤ 254) :
    galMul a.val (EXP_TABLE.getD i 0) =
      EXP_TABLE.getD ((LOG_TABLE.getD a.val 0 + i) % 255) 0 := by
  have hq1 : 1 ≤ EXP_TABLE.getD i 0 := (exp_range ⟨i, by omega⟩).1
  have hlq : LOG_TABLE.getD (EXP_TABLE.getD i 0) 0 = i := log_exp_id ⟨i, by omega⟩
  have hla := log_le_254 a
  unfold galMul mulPow
  rw [if_neg (by push_neg; exact ⟨ha, by omega⟩), hlq]
  split
  · congr 1; omega
  · congr 1; omega

/-! ### Claims -/

/-- Claim C1: `multiply(a,b)` returns 0 if either operand is 0; otherwise it
returns `exp_table[log_table[a] + log_table[b]]` with the exponent sum reduced
by 255 exactly when it reaches or exceeds 255 (i.e. reduced mod 255, since the
sum of two log entries is below 510). -/
theorem mul_spec (a b : Fin 256) :
    ((a.val = 0 ∨ b.val = 0) → galMul a.val b.val = 0) ∧
    (a.val ≠ 0 → b.val ≠ 0 →
      galMul a.val b.val =
        EXP_TABLE.getD ((LOG_TABLE.getD a.val 0 + LOG_TABLE.getD b.val 0) % 255) 0) := by
  constructor
  · intro h
    unfold galMul
    rw [if_pos h]
  · intro ha hb
    have hla := log_le_254 a
    have hlb := log_le_254 b
    unfold galMul
    rw [if_neg (by push_neg; exact ⟨ha, hb⟩)]
    congr 1
    unfold mulPow
    split <;> omega

/-- Witness for `mul_spec` at `a = 3`, `b = 7` and `a = 0`, `b = 5`. -/
theorem mul_spec_witness :
    galMul 3 7 = EXP_TABLE.getD ((LOG_TABLE.getD 3 0 + LOG_TABLE.getD 7 0) % 255) 0 ∧
    galMul 0 5 = 0 :=
  ⟨(mul_spec 3 7).2 (by decide) (by decide), (mul_spec 0 5).1 (Or.inl rfl)⟩

/-- Claim C2: `divide(a,b)` returns 0 when `a = 0` (for every `b`, without
failing); it fails exactly when `b = 0` and `a ≠ 0`; otherwise it returns
`exp_table[(log_table[a] - log_table[b]) mod 255]` (the source adds 255 once
when the subtraction is negative, which is the same index); and
`inverse(a) = divide(1,a)` fails exactly when `a = 0`. -/
theorem div_spec (a b : Fin 256) :
    (a.val = 0 → galDiv a.val b.val = some 0) ∧
    (a.val ≠ 0 → (galDiv a.val b.val = none ↔ b.val = 0)) ∧
    (a.val ≠ 0 → b.val ≠ 0 →
      galDiv a.val b.val =
        some (EXP_TABLE.getD
          (((LOG_TABLE.getD a.val 0 : Int) - (LOG_TABLE.getD b.val 0 : Int)) % 255).toNat 0)) ∧
    (galInv a.val = none ↔ a.val = 0) := by
  have hla := log_le_254 a
  have hlb := log_le_254 b
  have hne : ∀ x y : Fin 256, x.val ≠ 0 → y.val ≠ 0 → galDiv x.val y.val ≠ none := by
    intro x y hx hy
    have hlx := log_le_254 x
    have hly := log_le_254 y
    unfold galDiv
    rw [if_neg hx, if_neg hy,
      if_neg (by simp only [divPow, FIELD_SIZE_eq]; split <;> omega)]
    exact fun h => Option.noConfusion h
  refine ⟨?_, ?_, ?_, ?_⟩
  · intro ha
    unfold galDiv
    rw [if_pos ha]
  · intro ha
    constructor
    · intro hnone
      by_contra hb
      exact hne a b ha hb hnone
    · intro hb
      unfold galDiv
      rw [if_neg ha, if_pos hb]
  · intro ha hb
    have hnn : 0 ≤ divPow a.val b.val := by
      simp only [divPow, FIELD_SIZE_eq]; split <;> omega
    unfold galDiv
    rw [if_neg ha, if_neg hb, if_neg (by omega)]
    congr 2
    simp only [divPow, FIELD_SIZE_eq]
    split <;> omega
  · constructor
    · intro hnone
      unfold galInv at hnone
      by_contra ha
      exact hne 1 a (by decide) ha hnone
    · intro ha
      unfold galInv galDiv
      rw [if_neg (by decide), if_pos ha]

/-- Witness for `div_spec`: `6 / 0` panics, `0 / 0` is 0, `9 / 3` follows the
log/exp formula, and `inv 0` panics. -/
theorem div_spec_witness :
    galDiv 6 0 = none ∧ galDiv 0 0 = some 0 ∧
    galDiv 9 3 =
      some (EXP_TABLE.getD
        (((LOG_TABLE.getD 9 0 : Int) - (LOG_TABLE.getD 3 0 : Int)) % 255).toNat 0) ∧
    galInv 0 = none :=
  ⟨((div_spec 6 0).2.1 (by decide)).mpr rfl,
   (div_spec 0 0).1 rfl,
   (div_spec 9 3).2.2.1 (by decide) (by decide),
   (div_spec 0 0).2.2.2.mpr rfl⟩

/-- Claim C3 counterexample: at `a = 4`, `n = 2^31` the claimed formula fails.
`log_table[4] = 2`, so the exact product is `2 * 2^31 = 2^32 ≡ 1 (mod 255)`
and the claim predicts `exp_table[1] = 2`; but the source multiplies in `u32`,
where `2 * 2^31` wraps to 0, so `exp(4, 2^31)` actually returns
`exp_table[0] = 1`. -/
theorem exp_u32_wrap_counterexample :
    galExp 4 2147483648 ≠
      EXP_TABLE.getD (LOG_TABLE.getD 4 0 * 2147483648 % 255) 0 := by
  simp only [galExp, expPow, reduce255_eq, LOG_TABLE_eq, EXP_TABLE_eq]
  decide

/-- Claim C3 (amended): for every byte `a` and every `n < 2^32`, `exp(a,n)`
returns 1 when `n = 0`; returns 0 when `a = 0` and `n ≠ 0`; and otherwise
returns `exp_table[((log_table[a] * n) mod 2^32) mod 255]` — the product is
computed in wrapping 32-bit arithmetic, so it is reduced mod `2^32` before
being reduced into `[0,255)`. -/
theorem exp_spec (a : Fin 256) (n : Nat) (_hn : n < 2 ^ 32) :
    (n = 0 → galExp a.val n = 1) ∧
    (a.val = 0 → n ≠ 0 → galExp a.val n = 0) ∧
    (a.val ≠ 0 → n ≠ 0 →
      galExp a.val n = EXP_TABLE.getD (LOG_TABLE.getD a.val 0 * n % 2 ^ 32 % 255) 0) := by
  refine ⟨?_, ?_, ?_⟩
  · intro h
    unfold galExp
    rw [if_pos h]
  · intro ha hn0
    unfold galExp
    rw [if_neg hn0, if_pos ha]
  · intro ha hn0
    unfold galExp expPow
    rw [if_neg hn0, if_neg ha, reduce255_eq]

/-- Witness for `exp_spec` at `(4, 3)`, `(0, 5)` and `(7, 0)`. -/
theorem exp_spec_witness :
    galExp 4 3 = EXP_TABLE.getD (LOG_TABLE.getD 4 0 * 3 % 2 ^ 32 % 255) 0 ∧
    galExp 0 5 = 0 ∧ galExp 7 0 = 1 :=
  ⟨(exp_spec 4 3 (by norm_num)).2.2 (by decide) (by decide),
   (exp_spec 0 5 (by norm_num)).2.1 rfl (by decide),
   (exp_spec 7 0 (by norm_num)).1 rfl⟩

/-- Claim C4: the log table restricted to indices `1..=255` takes values in
`[0,254]`, is injective, and hits every exponent in `[0,254]` (a bijection onto
the exponents), and `exp_table[log_table[a]] = a` for every nonzero byte. -/
theorem log_bijection :
    (∀ a : Fin 256, a.val ≠ 0 → EXP_TABLE.getD (LOG_TABLE.getD a.val 0) 0 = a.val) ∧
    (∀ a : Fin 256, a.val ≠ 0 → LOG_TABLE.getD a.val 0 ≤ 254) ∧
    (∀ a b : Fin 256, a.val ≠ 0 → b.val ≠ 0 →
      LOG_TABLE.getD a.val 0 = LOG_TABLE.getD b.val 0 → a = b) ∧
    (∀ e : Nat, e ≤ 254 → ∃ a : Fin 256, a.val ≠ 0 ∧ LOG_TABLE.getD a.val 0 = e) := by
  refine ⟨exp_log_id, fun a _ => log_le_254 a, ?_, ?_⟩
  · intro a b ha hb hab
    have h1 := exp_log_id a ha
    have h2 := exp_log_id b hb
    rw [hab] at h1
    exact Fin.ext (h1.symm.trans h2)
  · intro e he
    have h1 : LOG_TABLE.getD (EXP_TABLE.getD e 0) 0 = e := log_exp_id ⟨e, by omega⟩
    have h2 : 1 ≤ EXP_TABLE.getD e 0 := (exp_range ⟨e, by omega⟩).1
    have h3 : EXP_TABLE.getD e 0 ≤ 255 := (exp_range ⟨e, by omega⟩).2
    exact ⟨⟨EXP_TABLE.getD e 0, by omega⟩, show EXP_TABLE.getD e 0 ≠ 0 by omega, h1⟩

/-- Witness for `log_bijection` at `a = 7` and `e = 254`. -/
theorem log_bijection_witness :
    EXP_TABLE.getD (LOG_TABLE.getD 7 0) 0 = 7 ∧
    ∃ a : Fin 256, a.val ≠ 0 ∧ LOG_TABLE.getD a.val 0 = 254 :=
  ⟨log_bijection.1 7 (by decide), log_bijection.2.2.2 254 (by norm_num)⟩

/-- Claim C5 counterexample: `gen_log_table` keeps no `-1` sentinel.  The log
table is an array of `u8` initialised to 0: the never-written slot at index 0
holds 0 — the same value as the legitimately written entry `log_table[1] = 0` —
not a sentinel (`255` would be `-1` in the byte encoding). -/
theorem log_no_sentinel_counterexample :
    LOG_TABLE.getD 0 0 = 0 ∧ LOG_TABLE.getD 1 0 = 0 ∧ LOG_TABLE.getD 0 0 ≠ 255 := by
  simp only [LOG_TABLE_eq]
  decide

/-- Claim C5 (amended): `gen_log_table` initialises all 256 entries to 0 and
writes `log[exp_table[e]] = e` for each `e` in `0..=254` unconditionally — there
is no sentinel, no duplicate-slot check, and no failure path; with the fixed
polynomial, index 0 is never written and simply retains its initial value 0. -/
theorem log_construction :
    LOG_TABLE.getD 0 0 = 0 ∧
    ∀ e : Fin 255, LOG_TABLE.getD (EXP_TABLE.getD e.val 0) 0 = e.val :=
  ⟨by simp only [LOG_TABLE_eq]; decide, log_exp_id⟩

/-- Claim C6: exponent-table construction sets entry 0 to the multiplicative
identity 1, and each entry `e` in `1..=254` is the previous entry shifted left
one bit, XOR-ed with the primitive polynomial when the shift overflows 8 bits
(`expStep` is the embedding of that loop body). -/
theorem exp_construction :
    EXP_TABLE.getD 0 0 = 1 ∧
    ∀ e : Fin 255, e.val ≠ 0 →
      EXP_TABLE.getD e.val 0 = expStep (EXP_TABLE.getD (e.val - 1) 0) := by
  simp only [EXP_TABLE_eq]
  decide

/-- Witness for `exp_construction` at `e = 8` (the first reduced entry:
`128 <<< 1 = 256` overflows, so entry 8 is `256 ^^^ 285 = 29`). -/
theorem exp_construction_witness :
    EXP_TABLE.getD 8 0 = expStep (EXP_TABLE.getD 7 0) :=
  exp_construction.2 ⟨8, by norm_num⟩ (by decide)

/-- Claim C7: with the standard polynomial, `multiply(3,7) = 9` and
`divide(9,3) = 7`; and for every nonzero byte `a` and every byte `b`,
`divide(b,a)` succeeds with a quotient `q` such that `multiply(a,q) = b`. -/
theorem mul_div_roundtrip :
    galMul 3 7 = 9 ∧ galDiv 9 3 = some 7 ∧
    ∀ a b : Fin 256, a.val ≠ 0 →
      ∃ q, galDiv b.val a.val = some q ∧ galMul a.val q = b.val := by
  refine ⟨?_, ?_, ?_⟩
  · simp only [galMul, mulPow, LOG_TABLE_eq, EXP_TABLE_eq]
    decide
  · simp only [galDiv, divPow, FIELD_SIZE_eq, LOG_TABLE_eq, EXP_TABLE_eq]
    decide
  · intro a b ha
    by_cases hb : b.val = 0
    · refine ⟨0, ?_, ?_⟩
      · unfold galDiv
        rw [if_pos hb]
      · unfold galMul
        rw [if_pos (Or.inr rfl)]
        exact hb.symm
    · have hla := log_le_254 a
      have hlb := log_le_254 b
      by_cases hcase : LOG_TABLE.getD a.val 0 ≤ LOG_TABLE.getD b.val 0
      · refine ⟨EXP_TABLE.getD (LOG_TABLE.getD b.val 0 - LOG_TABLE.getD a.val 0) 0, ?_, ?_⟩
        · unfold galDiv divPow
          rw [FIELD_SIZE_eq, if_neg hb, if_neg ha,
            if_neg (show ¬(LOG_TABLE.getD b.val 0 : Int) - (LOG_TABLE.getD a.val 0 : Int) < 0
              by omega)]
          rw [if_neg (by omega)]
          congr 2
          omega
        · rw [mul_exp_entry a ha _ (by omega)]
          have h1 : (LOG_TABLE.getD a.val 0 +
              (LOG_TABLE.getD b.val 0 - LOG_TABLE.getD a.val 0)) % 255 =
              LOG_TABLE.getD b.val 0 := by omega
          rw [h1]
          exact exp_log_id b hb
      · refine ⟨EXP_TABLE.getD (LOG_TABLE.getD b.val 0 + 255 - LOG_TABLE.getD a.val 0) 0,
          ?_, ?_⟩
        · unfold galDiv divPow
          rw [FIELD_SIZE_eq, if_neg hb, if_neg ha,
            if_pos (show (LOG_TABLE.getD b.val 0 : Int) - (LOG_TABLE.getD a.val 0 : Int) < 0
              by omega)]
          rw [if_neg (by omega)]
          congr 2
          omega
        · rw [mul_exp_entry a ha _ (by omega)]
          have h1 : (LOG_TABLE.getD a.val 0 +
              (LOG_TABLE.getD b.val 0 + 255 - LOG_TABLE.getD a.val 0)) % 255 =
              LOG_TABLE.getD b.val 0 := by omega
          rw [h1]
          exact exp_log_id b hb

/-- Witness for `mul_div_roundtrip` at `a = 3`, `b = 9`. -/
theorem mul_div_roundtrip_witness :
    ∃ q, galDiv 9 3 = some q ∧ galMul 3 q = 9 :=
  mul_div_roundtrip.2.2 3 9 (by decide)

/-- Claim C8: multiplication and addition are commutative on bytes. -/
theorem mul_add_comm_spec (a b : Fin 256) :
    galMul a.val b.val = galMul b.val a.val ∧ galAdd a.val b.val = galAdd b.val a.val := by
  constructor
  · have hm : mulPow a.val b.val = mulPow b.val a.val := by
      unfold mulPow
      rw [Nat.add_comm (LOG_TABLE.getD a.val 0) (LOG_TABLE.getD b.val 0)]
    unfold galMul
    by_cases h : a.val = 0 ∨ b.val = 0
    · rw [if_pos h, if_pos (Or.symm h)]
    · rw [if_neg h, if_neg (fun hc => h (Or.symm hc)), hm]
  · exact Nat.xor_comm a.val b.val

/-- Claim C9: the field has no zero divisors — `multiply(a,b) ≠ 0` for nonzero
bytes `a`, `b` — and every exponent-table entry at indices `0..=254` is a
nonzero byte. -/
theorem no_zero_divisors_spec :
    (∀ a b : Fin 256, a.val ≠ 0 → b.val ≠ 0 → galMul a.val b.val ≠ 0) ∧
    (∀ e : Fin 255, EXP_TABLE.getD e.val 0 ≠ 0) := by
  have hexp : ∀ e : Fin 255, EXP_TABLE.getD e.val 0 ≠ 0 := by
    intro e
    have h := (exp_range e).1
    omega
  refine ⟨?_, hexp⟩
  intro a b ha hb
  have hla := log_le_254 a
  have hlb := log_le_254 b
  have hidx : mulPow a.val b.val ≤ 254 := by
    unfold mulPow
    split <;> omega
  unfold galMul
  rw [if_neg (by push_neg; exact ⟨ha, hb⟩)]
  exact hexp ⟨mulPow a.val b.val, by omega⟩

/-- Witness for `no_zero_divisors_spec` at `a = 3`, `b = 7` and `e = 254`. -/
theorem no_zero_divisors_spec_witness :
    galMul 3 7 ≠ 0 ∧ EXP_TABLE.getD 254 0 ≠ 0 :=
  ⟨no_zero_divisors_spec.1 3 7 (by decide) (by decide), no_zero_divisors_spec.2 254⟩

/-- Claim C10: for nonzero byte operands, the exponent-table index computed by
`multiply` (`mulPow`) lies in `[0,254]`, the index computed by `divide`
(`divPow`) is non-negative — so the internal `assert!(pow_div >= 0)` always
holds — and at most 254, the index computed by `exp` (`expPow`) is at most 254
for every exponent, and the 256th exponent-table entry (index 255), which
construction leaves as 0, is never read by any field operation. -/
theorem index_bounds (a b : Fin 256) (_ha : a.val ≠ 0) (_hb : b.val ≠ 0) :
    mulPow a.val b.val ≤ 254 ∧
    0 ≤ divPow a.val b.val ∧ (divPow a.val b.val).toNat ≤ 254 ∧
    (∀ n : Nat, expPow a.val n ≤ 254) ∧
    EXP_TABLE.getD 255 0 = 0 := by
  have hla := log_le_254 a
  have hlb := log_le_254 b
  refine ⟨by unfold mulPow; split <;> omega, ?_, ?_, ?_, ?_⟩
  · simp only [divPow, FIELD_SIZE_eq]
    split <;> omega
  · simp only [divPow, FIELD_SIZE_eq]
    split <;> omega
  · intro n
    unfold expPow
    rw [reduce255_eq]
    have h := Nat.mod_lt (LOG_TABLE.getD a.val 0 * n % 2 ^ 32) (show 0 < 255 by norm_num)
    omega
  · simp only [EXP_TABLE_eq]
    decide

/-- Witness for `index_bounds` at `a = 3`, `b = 7`. -/
theorem index_bounds_witness :
    mulPow 3 7 ≤ 254 ∧ 0 ≤ divPow 3 7 :=
  ⟨(index_bounds 3 7 (by decide) (by decide)).1,
   (index_bounds 3 7 (by decide) (by decide)).2.1⟩
